import Mathlib

/-!
Verification of the lightcone halo catalog builder (build_mt.py / save_cat.py).

The source's floating-point arrays are embedded over the rationals: every
arithmetic expression is translated literally, and square roots are elided by
working with squared distances (a distance is zero iff its square is zero, and
all claims about distances only compare them at zero or parametrize over their
values).
-/

namespace AbacusLC

/-! ## Geometry kernel: dist (build_mt.py lines 58-104)

dist loops over the axes of each point pair; for each axis difference dx,
when a box size L is given it applies
  if dx >= L/2 then dx -= L elif dx < -L/2 then dx += L
then accumulates dx*dx, and finally stores sqrt of the accumulated sum.
When len(pos2) == 1 the single point of pos2 is broadcast against every
point of pos1; otherwise points are paired index by index. -/

/-- One axis difference correction of dist (lines 95-99): a single
conditional shift by the box length L when a box size is given. -/
def wrapDx (L : Option ℚ) (dx : ℚ) : ℚ :=
  match L with
  | none => dx
  | some L => if dx ≥ L / 2 then dx - L else if dx < -L / 2 then dx + L else dx

/-- Squared distance of one point pair as accumulated by the inner loop of
dist (lines 92-101): sum over the axes of the wrapped difference squared.
The source stores sqrt of this value; the sqrt is elided, so 0 here is
exactly distance 0 there. -/
def rowDistSq (L : Option ℚ) (p q : List ℚ) : ℚ :=
  ((p.zip q).map (fun x => (wrapDx L (x.1 - x.2)) ^ 2)).sum

/-- dist over a set of points (lines 86-104): pos2 of length one is
broadcast against every point of pos1 (i2 stays 0), otherwise the points
are paired index by index (i2 advances with i). Returns the squared
distances. -/
def distSq (pos1 pos2 : List (List ℚ)) (L : Option ℚ) : List ℚ :=
  if pos2.length = 1 then
    pos1.map (fun p => rowDistSq L p pos2.headI)
  else
    (pos1.zip pos2).map (fun x => rowDistSq L x.1 x.2)

/-- The wrap range claimed by the spec: each axis difference lands in
the interval from -L/2 inclusive to L/2 exclusive. -/
def specWrapInRange (L dx : ℚ) : Prop :=
  -(L / 2) ≤ wrapDx (some L) dx ∧ wrapDx (some L) dx < L / 2

/-- Shift a point by L along one axis: the point p + L*e_axis. -/
def shiftAxis : List ℚ → ℕ → ℚ → List ℚ
  | [], _, _ => []
  | x :: xs, 0, L => (x + L) :: xs
  | x :: xs, n + 1, L => x :: shiftAxis xs n L

/-! ## Geometry kernel: solve_crossing (build_mt.py lines 182-220)

After unwrapping the progenitor position and recomputing both distances to
the origin (r1 for the previous epoch, r2 for the current one), the solver
evaluates a closed-form crossing radius and the closer-to-current flag.
The radii r1, r2 are parameters here (they are outputs of dist, hence
square roots; every claim about the solver quantifies over their values). -/

/-- Closed-form crossing radius of solve_crossing (line 200). -/
def chi_star (r1 r2 chi1 chi2 : ℚ) : ℚ :=
  (r1 * (chi1 - chi2) + chi1 * (r2 - r1)) / ((chi1 - chi2) + (r2 - r1))

/-- The closer-to-current flag bool_star of solve_crossing (line 215):
true when the crossing radius is strictly farther from the previous
shell radius chi1 than from the current one chi2. -/
def bool_star (r1 r2 chi1 chi2 : ℚ) : Bool :=
  |chi1 - chi_star r1 r2 chi1 chi2| > |chi2 - chi_star r1 r2 chi1 chi2|

/-! ## Epoch processor: selection and classification (build_mt.py lines 504-512, 614-672)

chi_this is the current shell radius, chi_prev the previous one
(chi_prev > chi_this), delta_chi = chi_prev - chi_this the current
inter-shell spacing and delta_chi_old the previous iteration's spacing. -/

/-- Selection mask for an eligible halo with progenitor info (lines
504-506): comoving distance strictly beyond chi_this and at most
chi_prev. -/
def mask_lc_this_info (d chi_this chi_prev : ℚ) : Bool :=
  decide (d > chi_this) && decide (d ≤ chi_prev)

/-- Selection mask for an eligible halo without progenitor info (lines
509-512): comoving distance strictly beyond chi_this - delta_chi_old/2
and at most chi_this + delta_chi/2. -/
def mask_lc_this_noinfo (d chi_this delta_chi delta_chi_old : ℚ) : Bool :=
  decide (d > chi_this - delta_chi_old / 2) && decide (d ≤ chi_this + delta_chi / 2)

/-- The no-info selection rule as the spec words it: within half a
shell-width of chi_this, the shell-width being the average of the current
and previous inter-shell spacings. -/
def specNoinfoWithinHalfWidth (d chi_this delta_chi delta_chi_old : ℚ) : Prop :=
  |d - chi_this| ≤ (delta_chi + delta_chi_old) / 2 / 2

/-- A halo with progenitor info that was selected into the shell band
(a row of Merger_this_info_lc): its identity and the two unwrapped
comoving distances to the origin computed inside solve_crossing
(rProg at the previous epoch, rCur at the current one), from which
bool_star is evaluated. -/
structure InfoHalo where
  haloIndex : ℕ
  rProg : ℚ
  rCur : ℚ
deriving DecidableEq

/-- The per-halo classification flag: bool_star of solve_crossing at the
halo's distances (line 215), as consumed at lines 615-618 and 661-672. -/
def closerToCurrent (chi1 chi2 : ℚ) (h : InfoHalo) : Bool :=
  bool_star h.rProg h.rCur chi1 chi2

/-- The selected info-halos finalized into this epoch's output table
(lines 615-618): the rows where bool_star is true, in order. -/
def finalizedRows (chi1 chi2 : ℚ) (halos : List InfoHalo) : List InfoHalo :=
  halos.filter (fun h => closerToCurrent chi1 chi2 h)

/-- The selected info-halos pushed into the carry-over table Merger_next
for the next epoch (lines 661-672): the rows where bool_star is false,
in order. -/
def carryRows (chi1 chi2 : ℚ) (halos : List InfoHalo) : List InfoHalo :=
  halos.filter (fun h => ! closerToCurrent chi1 chi2 h)

/-! ## Index remapper (build_mt.py lines 106-143) -/

/-- unpack_inds (lines 106-117): local index = id mod 1e9, slab number =
(id mod 1e12 - local index) / 1e9. Returns (slab number, index) as the
source does. -/
def unpack_inds (haloId : ℕ) : ℕ × ℕ :=
  let index := haloId % 10 ^ 9
  ((haloId % 10 ^ 12 - index) / 10 ^ 9, index)

/-- The offset accumulation loop of correct_inds (lines 136-141) for one
id: walk the window's (slab, size) pairs, adding the running offset each
time the slab matches the id's slab, and growing the offset by the
slab's halo count. -/
def remapOffset : List (ℕ × ℕ) → ℕ → ℕ → ℕ
  | [], _, _ => 0
  | (sl, sz) :: rest, offset, sid =>
      (if sl = sid then offset else 0) + remapOffset rest (offset + sz) sid

/-- The (slab, size) pairs visited by the loop for i in range(start, stop). -/
def slabWindow (slabs N_halos_slabs : List ℕ) (start stop : ℕ) : List (ℕ × ℕ) :=
  ((slabs.zip N_halos_slabs).drop start).take (stop - start)

/-- correct_inds (lines 119-143) for one id: unpack, then add the
accumulated offset of the id's slab within the loaded window. -/
def correct_one (N_halos_slabs slabs : List ℕ) (start stop : ℕ) (haloId : ℕ) : ℕ :=
  (unpack_inds haloId).2 +
    remapOffset (slabWindow slabs N_halos_slabs start stop) 0 (unpack_inds haloId).1

/-- correct_inds over an id array: each id is remapped independently. -/
def correct_inds (halo_ids : List ℕ) (N_halos_slabs slabs : List ℕ)
    (start stop : ℕ) : List ℕ :=
  halo_ids.map (correct_one N_halos_slabs slabs start stop)

/-! ## Eligibility tracker (build_mt.py lines 483-493, 642-658) -/

/-- Mark the listed halo-slots ineligible (lines 643 and 658): the numpy
boolean assignment eligibility_prev[inds] = False. Out-of-range indices
leave the array unchanged. -/
def markFalse (elig : List Bool) (inds : List ℕ) : List Bool :=
  inds.foldl (fun e i => e.set i false) elig

/-- Eligibility of a newly opened epoch (lines 486 and 489): np.ones,
every slot eligible. -/
def freshEligibility (n : ℕ) : List Bool := List.replicate n true

/-! ## Output entries and velocity re-attachment
(build_mt.py lines 606-633, save_cat.py lines 107-110) -/

/-- A selected halo without progenitor info (a row of
Merger_this_noinfo_lc): identity and current position. -/
structure NoinfoHalo where
  haloIndex : ℕ
  pos : ℚ × ℚ × ℚ
deriving DecidableEq

/-- A row of the output table Merger_lc (and of the carry-over table
Merger_next): identity, interpolated position, interpolated velocity and
interpolated comoving distance. -/
structure LCEntry where
  haloIndex : ℕ
  pos : ℚ × ℚ × ℚ
  vel : ℚ × ℚ × ℚ
  chi : ℚ
deriving DecidableEq

/-- The output entry written for a selected no-info halo (lines 620-624):
position copied uninterpolated, velocity set to zeros, comoving distance
set to chi_this. -/
def noinfoEntry (chi_this : ℚ) (h : NoinfoHalo) : LCEntry :=
  { haloIndex := h.haloIndex, pos := h.pos, vel := (0, 0, 0), chi := chi_this }

/-- The not-interpolated test of save_cat.py (line 108): the absolute
velocity components sum, minus 0, is below 1e-6. -/
def not_interp (vel : ℚ × ℚ × ℚ) : Bool :=
  decide (|vel.1| + |vel.2.1| + |vel.2.2| - 0 < 1 / 1000000)

/-- The velocity re-attachment of save_cat.py (line 109): an entry
passing not_interp gets the halo catalog velocity v_L2com, any other
entry keeps its interpolated velocity. -/
def attachVel (vL2com : ℚ × ℚ × ℚ) (e : LCEntry) : LCEntry :=
  if not_interp e.vel then { e with vel := vL2com } else e

/-! ## Carry-over checkpoint flow (build_mt.py lines 589-601, 628-633, 710-715) -/

/-- Key of the per-(epoch, origin, chunk) carry-over checkpoint file
tmp/Merger_next_z(z)_lc(o).(k).ecsv: the redshift interpolated into the
filename, the origin index and the chunk index. Both the save (line 714)
and the load (line 591) build the name from the running iteration's own
z_this. -/
def mergerNextKey (z : ℚ) (o k : ℕ) : ℚ × ℕ × ℕ := (z, o, k)

/-- Carry-over handling of one (epoch, chunk, origin) unit. For an epoch
other than the first of the range (or when resuming), the pending table
is read from the tmp store under the unit's own z_this (lines 589-592);
none models the missing file (the source would in fact fail at the
undefined name ascii before even reaching the filesystem). The output
table is laid out as finalized rows, then no-info rows, then the loaded
rows (lines 614-633), and the unit's new carry-over is saved under the
same z_this key (line 714). -/
def epochUnitCarry (store : ℚ × ℕ × ℕ → Option (List LCEntry)) (z_this : ℚ)
    (o k : ℕ) (isFirst resumeFlag : Bool)
    (finalized noinfo carry : List LCEntry) :
    Option (List LCEntry × (ℚ × ℕ × ℕ → Option (List LCEntry))) :=
  let loaded : Option (List LCEntry) :=
    if isFirst = false ∨ resumeFlag = true then store (mergerNextKey z_this o k)
    else some []
  match loaded with
  | none => none
  | some nextRecs =>
      some (finalized ++ noinfo ++ nextRecs,
        fun key => if key = mergerNextKey z_this o k then some carry else store key)

/-- A concrete output/carry row used to run the checkpoint flow. -/
def sampleEntry (n : ℕ) : LCEntry := ⟨n, (0, 0, 0), (0, 0, 0), 0⟩

/-- The tmp store after the first epoch of a run processes its single
(chunk, origin) unit, starting from an empty tmp directory, with
carry-over row 7 pending for the next epoch. -/
def storeAfterEpoch0 (z0 : ℚ) : ℚ × ℕ × ℕ → Option (List LCEntry) :=
  match epochUnitCarry (fun _ => none) z0 0 0 true false
      [sampleEntry 1] [sampleEntry 2] [sampleEntry 7] with
  | some r => r.2
  | none => fun _ => none

/-- A two-epoch run over redshifts z0 then z1 for one (chunk, origin)
unit: the second epoch's output table, if the unit completes. -/
def twoEpochRun (z0 z1 : ℚ) : Option (List LCEntry) :=
  match epochUnitCarry (storeAfterEpoch0 z0) z1 0 0 false false
      [sampleEntry 4] [sampleEntry 5] [sampleEntry 9] with
  | some r => some r.1
  | none => none

/-! ## Observer origin handling (build_mt.py lines 257-259, 466-473) -/

/-- The origin selection of one (epoch, chunk, origin) unit (lines
470-473): origin = origins[o] takes a numpy view of row o of the header's
LightConeOrigins array, and origin /= 2. divides that row in place. The
unit then uses the halved row, and the shared origins array keeps the
halved value for every later unit. Returns the mutated array and the
origin value the unit uses. -/
def processUnitOrigin (origins : List (ℚ × ℚ × ℚ)) (o : ℕ) :
    List (ℚ × ℚ × ℚ) × (ℚ × ℚ × ℚ) :=
  let row := origins.getD o (0, 0, 0)
  let halved := (row.1 / 2, row.2.1 / 2, row.2.2 / 2)
  (origins.set o halved, halved)

/-! ## Resume validation (build_mt.py lines 290-296, 313-314)

In the source, main's resume branch (lines 290-296) executes before the
epoch indices are computed: ind_start is first assigned at line 313, yet
line 296 already reads zs_mt[ind_start] inside the resume assert. A
Python local read before its first assignment raises UnboundLocalError,
modeled here by an Option-valued local that is still none at that
point. -/

/-- First index of the minimum (np.argmin) over the running values. -/
def argminAux : List ℚ → ℕ → ℕ → ℚ → ℕ
  | [], _, best, _ => best
  | v :: rest, idx, best, bestv =>
      if v < bestv then argminAux rest (idx + 1) idx v
      else argminAux rest (idx + 1) best bestv

/-- np.argmin(np.abs(zs_mt - z)) as used at lines 313-314. -/
def argminAbs (xs : List ℚ) (t : ℚ) : ℕ :=
  match xs with
  | [] => 0
  | x :: rest => argminAux (rest.map (fun v => |v - t|)) 1 0 |x - t|

/-- The prelude of main around the resume check, with statements in
source order: the resume branch (lines 290-296) reads the checkpointed
redshift ckptZ and compares it against zs_mt[ind_start], but ind_start is
a local that is only assigned later (line 313), so the read raises;
afterwards ind_start and ind_stop are computed (lines 313-314). Returns
the epoch index range on success. -/
def mainPrelude (resume : Bool) (zs_mt : List ℚ) (ckptZ : ℚ)
    (z_start z_stop : ℚ) : Except String (ℕ × ℕ) := do
  let indStartLocal : Option ℕ := none
  if resume then
    match indStartLocal with
    | none => throw "UnboundLocalError: ind_start"
    | some is_ =>
      match zs_mt.get? is_ with
      | none => throw "IndexError"
      | some z =>
        if |z - ckptZ| < 1 / 1000000 then pure ()
        else throw "AssertionError: recorded state is not for the correct redshift"
  let ind_start := argminAbs zs_mt z_start
  let ind_stop := argminAbs zs_mt z_stop
  pure (ind_start, ind_stop)

/-! ## Helper lemmas for the geometry kernel -/

lemma rowDistSq_cons (L : Option ℚ) (x y : ℚ) (p q : List ℚ) :
    rowDistSq L (x :: p) (y :: q) = wrapDx L (x - y) ^ 2 + rowDistSq L p q := by
  simp [rowDistSq]

lemma wrapDx_none (dx : ℚ) : wrapDx none dx = dx := rfl

lemma wrapDx_some (Lv dx : ℚ) :
    wrapDx (some Lv) dx =
      if dx ≥ Lv / 2 then dx - Lv else if dx < -Lv / 2 then dx + Lv else dx := rfl

lemma rowDistSq_self_none (p : List ℚ) : rowDistSq none p p = 0 := by
  induction p with
  | nil => simp [rowDistSq]
  | cons x xs ih => rw [rowDistSq_cons, ih]; simp [wrapDx_none]

lemma wrapDx_neg_box (L : ℚ) (hL : 0 < L) : wrapDx (some L) (-L) = 0 := by
  rw [wrapDx_some, if_neg (by simp; linarith), if_pos (by linarith)]
  ring

lemma wrapDx_zero (L : ℚ) (hL : 0 < L) : wrapDx (some L) 0 = 0 := by
  rw [wrapDx_some, if_neg (by simp; linarith), if_neg (by simp; linarith)]

lemma rowDistSq_self_some (L : ℚ) (hL : 0 < L) (p : List ℚ) :
    rowDistSq (some L) p p = 0 := by
  induction p with
  | nil => simp [rowDistSq]
  | cons x xs ih =>
    rw [rowDistSq_cons, ih, show x - x = (0 : ℚ) by ring, wrapDx_zero L hL]
    ring

lemma rowDistSq_shiftAxis (L : ℚ) (hL : 0 < L) (p : List ℚ) (axis : ℕ) :
    rowDistSq (some L) p (shiftAxis p axis L) = 0 := by
  induction p generalizing axis with
  | nil => simp [rowDistSq, shiftAxis]
  | cons x xs ih =>
    cases axis with
    | zero =>
      rw [shiftAxis, rowDistSq_cons, show x - (x + L) = -L by ring,
        wrapDx_neg_box L hL, rowDistSq_self_some L hL]
      ring
    | succ n =>
      rw [shiftAxis, rowDistSq_cons, ih n, show x - x = (0 : ℚ) by ring,
        wrapDx_zero L hL]
      ring

/-! ## Claim theorems for the geometry kernel -/

/-- Claim C7 counterexample: the claim asserts every axis difference is
wrapped into the interval from -L/2 to L/2, but for box size L = 2 the
difference 4 - 0 receives only a single -L correction and ends at 2,
outside that interval; the value 2^2 = 4 is what dist then squares. -/
theorem C7_counterexample :
    wrapDx (some 2) (4 - 0) = 2 ∧ ¬ specWrapInRange 2 (4 - 0) ∧
    distSq [[4]] [[0]] (some 2) = [4] := by
  refine ⟨by norm_num [wrapDx], ?_, by norm_num [distSq, rowDistSq, wrapDx]⟩
  intro h
  rcases h with ⟨_, h2⟩
  norm_num [wrapDx] at h2

lemma pairedRows_zero (L : Option ℚ) (f : List ℚ → List ℚ)
    (h : ∀ p, rowDistSq L p (f p) = 0) (ps : List (List ℚ)) :
    (ps.zip (ps.map f)).map (fun x => rowDistSq L x.1 x.2) =
      List.replicate ps.length 0 := by
  induction ps with
  | nil => simp
  | cons p ps ih => simp [h p, ih, List.replicate_succ]

lemma selfRows_zero (L : Option ℚ) (h : ∀ p, rowDistSq L p p = 0)
    (ps : List (List ℚ)) :
    (ps.zip ps).map (fun x => rowDistSq L x.1 x.2) =
      List.replicate ps.length 0 := by
  induction ps with
  | nil => simp
  | cons p ps ih => simp [h p, ih, List.replicate_succ]

/-- Claim C7, amended: the two zero-distance identities hold as stated,
in both the broadcast (single reference point) and the paired case, and
the single conditional box-length correction wraps an axis difference
into the interval from -L/2 to L/2 provided the difference's magnitude is
at most L (as holds for differences of in-box coordinates); larger
differences such as 2L stay outside that interval. -/
theorem C7_dist_periodic :
    (∀ (ps : List (List ℚ)) (axis : ℕ) (L : ℚ), 0 < L →
      distSq ps (ps.map (fun p => shiftAxis p axis L)) (some L) =
        List.replicate ps.length 0) ∧
    (∀ ps : List (List ℚ), distSq ps ps none = List.replicate ps.length 0) ∧
    (∀ L dx : ℚ, 0 < L → -L ≤ dx → dx ≤ L → specWrapInRange L dx) := by
  refine ⟨?_, ?_, ?_⟩
  · intro ps axis L hL
    have hrow : ∀ p, rowDistSq (some L) p (shiftAxis p axis L) = 0 :=
      fun p => rowDistSq_shiftAxis L hL p axis
    rw [distSq]
    split_ifs with hlen
    · rw [List.length_map] at hlen
      rcases ps with _ | ⟨p, _ | ⟨q, ps⟩⟩
      · simp at hlen
      · simp only [List.map_cons, List.map_nil, List.headI, List.length_cons,
          List.length_nil, List.replicate]
        rw [hrow p]
      · simp at hlen
    · exact pairedRows_zero (some L) _ hrow ps
  · intro ps
    have hrow : ∀ p, rowDistSq none p p = 0 := rowDistSq_self_none
    rw [distSq]
    split_ifs with hlen
    · rcases ps with _ | ⟨p, _ | ⟨q, ps⟩⟩
      · simp at hlen
      · simp only [List.headI, List.map_cons, List.map_nil, List.length_cons,
          List.length_nil, List.replicate]
        rw [hrow p]
      · simp at hlen
    · exact selfRows_zero none hrow ps
  · intro L dx hL hlo hhi
    unfold specWrapInRange
    rw [wrapDx_some]
    split_ifs with h1 h2
    · constructor <;> linarith
    · constructor <;> linarith
    · constructor <;> linarith

/-- Witness for the amended claim C7 at concrete inputs: the point (1,2,3)
shifted by the box length 10 along axis 0 is at squared distance 0, the
point paired with itself without a box is at distance 0, and the axis
difference -7 with box size 10 wraps into the claimed interval. -/
theorem C7_dist_periodic_witness :
    distSq [[1, 2, 3]] ([[1, 2, 3]].map (fun p => shiftAxis p 0 10)) (some 10) =
      List.replicate 1 0 ∧
    distSq [[1, 2, 3], [4, 5, 6]] [[1, 2, 3], [4, 5, 6]] none =
      List.replicate 2 0 ∧
    specWrapInRange 10 (-7) :=
  ⟨C7_dist_periodic.1 [[1, 2, 3]] 0 10 (by norm_num),
   C7_dist_periodic.2.1 [[1, 2, 3], [4, 5, 6]],
   C7_dist_periodic.2.2 10 (-7) (by norm_num) (by norm_num) (by norm_num)⟩

lemma chi_star_mul_den (r1 r2 chi1 chi2 : ℚ)
    (hden : (chi1 - chi2) + (r2 - r1) ≠ 0) :
    chi_star r1 r2 chi1 chi2 * ((chi1 - chi2) + (r2 - r1)) =
      r1 * (chi1 - chi2) + chi1 * (r2 - r1) := by
  rw [chi_star, div_mul_cancel₀ _ hden]

/-- Claim C5: when the previous shell lies beyond the current one and the
sign of (distance to origin minus shell radius) genuinely flips between
the two epochs, the closed-form crossing radius lies in the closed
interval between the two shell radii (exact arithmetic, denominator
nonzero). Subscript 1 is the previous epoch, 2 the current one, and r1,
r2 are the unwrapped distances to the origin recomputed inside
solve_crossing. -/
theorem C5_chi_star_in_band (r1 r2 chi1 chi2 : ℚ)
    (hband : chi2 < chi1)
    (hden : (chi1 - chi2) + (r2 - r1) ≠ 0)
    (hcross : (0 < r1 - chi1 ∧ r2 - chi2 < 0) ∨ (r1 - chi1 < 0 ∧ 0 < r2 - chi2)) :
    chi2 ≤ chi_star r1 r2 chi1 chi2 ∧ chi_star r1 r2 chi1 chi2 ≤ chi1 := by
  have key := chi_star_mul_den r1 r2 chi1 chi2 hden
  set s := chi_star r1 r2 chi1 chi2 with hs
  have e1 : (s - chi2) * ((chi1 - chi2) + (r2 - r1)) =
      (chi1 - chi2) * (r2 - chi2) := by linear_combination key
  have e2 : (s - chi1) * ((chi1 - chi2) + (r2 - r1)) =
      (chi1 - chi2) * (r1 - chi1) := by linear_combination key
  rcases hcross with ⟨h1, h2⟩ | ⟨h1, h2⟩
  · have hdneg : (chi1 - chi2) + (r2 - r1) < 0 := by linarith
    constructor
    · nlinarith [e1, mul_pos (show (0 : ℚ) < chi1 - chi2 by linarith)
        (show (0 : ℚ) < chi2 - r2 by linarith)]
    · nlinarith [e2, mul_pos (show (0 : ℚ) < chi1 - chi2 by linarith) h1]
  · have hdpos : 0 < (chi1 - chi2) + (r2 - r1) := by linarith
    constructor
    · nlinarith [e1, mul_pos (show (0 : ℚ) < chi1 - chi2 by linarith) h2]
    · nlinarith [e2, mul_pos (show (0 : ℚ) < chi1 - chi2 by linarith)
        (show (0 : ℚ) < chi1 - r1 by linarith)]

/-- Witness for claim C5: with chi1 = 4, chi2 = 2, r1 = 5 (outside the
previous shell) and r2 = 1 (inside the current shell), the crossing
radius 3 lies between the shells. -/
theorem C5_chi_star_in_band_witness :
    (2 : ℚ) ≤ chi_star 5 1 4 2 ∧ chi_star 5 1 4 2 ≤ 4 :=
  C5_chi_star_in_band 5 1 4 2 (by norm_num) (by norm_num)
    (Or.inl ⟨by norm_num, by norm_num⟩)

/-! ## Claim C3: partition of selected info-halos -/

/-- Claim C3: every halo with progenitor info selected into the shell
band lands in exactly one of the finalized rows and the carry-over rows,
never both and never neither, and the side is decided by bool_star,
which is true exactly when the crossing radius is strictly closer to the
current shell radius chi2 than to the previous one chi1. -/
theorem C3_partition (chi1 chi2 : ℚ) (halos : List InfoHalo) (h : InfoHalo)
    (hmem : h ∈ halos) :
    ((h ∈ finalizedRows chi1 chi2 halos ∧ h ∉ carryRows chi1 chi2 halos) ∨
     (h ∉ finalizedRows chi1 chi2 halos ∧ h ∈ carryRows chi1 chi2 halos)) ∧
    (h ∈ finalizedRows chi1 chi2 halos ↔ closerToCurrent chi1 chi2 h = true) ∧
    (h ∈ carryRows chi1 chi2 halos ↔ closerToCurrent chi1 chi2 h = false) ∧
    (closerToCurrent chi1 chi2 h = true ↔
      |chi_star h.rProg h.rCur chi1 chi2 - chi2| <
        |chi_star h.rProg h.rCur chi1 chi2 - chi1|) := by
  have hfin : h ∈ finalizedRows chi1 chi2 halos ↔
      closerToCurrent chi1 chi2 h = true := by
    rw [finalizedRows, List.mem_filter]
    exact ⟨fun hx => hx.2, fun hx => ⟨hmem, hx⟩⟩
  have hcar : h ∈ carryRows chi1 chi2 halos ↔
      closerToCurrent chi1 chi2 h = false := by
    rw [carryRows, List.mem_filter]
    constructor
    · intro hx
      have := hx.2
      simpa using this
    · intro hx
      exact ⟨hmem, by simpa using hx⟩
  refine ⟨?_, hfin, hcar, ?_⟩
  · by_cases hc : closerToCurrent chi1 chi2 h = true
    · left
      refine ⟨hfin.mpr hc, ?_⟩
      intro hx
      rw [hcar] at hx
      rw [hc] at hx
      simp at hx
    · right
      have hc' : closerToCurrent chi1 chi2 h = false := by
        simpa using hc
      refine ⟨?_, hcar.mpr hc'⟩
      intro hx
      exact hc (hfin.mp hx)
  · rw [closerToCurrent, bool_star]
    rw [abs_sub_comm chi1 (chi_star h.rProg h.rCur chi1 chi2),
      abs_sub_comm chi2 (chi_star h.rProg h.rCur chi1 chi2)]
    simp [gt_iff_lt]

/-- Witness for claim C3 at a concrete unit: with shells chi1 = 4,
chi2 = 2, the selected halo with distances (6, 1) is finalized (its
crossing radius 8/3 is closer to the current shell) and the halo with
distances (5, 0) is carried over. -/
theorem C3_partition_witness :
    ((⟨0, 6, 1⟩ : InfoHalo) ∈ finalizedRows 4 2 [⟨0, 6, 1⟩, ⟨1, 5, 0⟩] ∧
      (⟨0, 6, 1⟩ : InfoHalo) ∉ carryRows 4 2 [⟨0, 6, 1⟩, ⟨1, 5, 0⟩]) ∨
    ((⟨0, 6, 1⟩ : InfoHalo) ∉ finalizedRows 4 2 [⟨0, 6, 1⟩, ⟨1, 5, 0⟩] ∧
      (⟨0, 6, 1⟩ : InfoHalo) ∈ carryRows 4 2 [⟨0, 6, 1⟩, ⟨1, 5, 0⟩]) :=
  (C3_partition 4 2 [⟨0, 6, 1⟩, ⟨1, 5, 0⟩] ⟨0, 6, 1⟩ (by simp)).1

/-! ## Claim C4: shell-band selection masks -/

/-- Claim C4 counterexample: with chi_this = 10, current spacing 2 and
previous spacing 0 (the first epoch of a range), the no-info halo at
distance 10.9 is selected by the code's mask, yet it is not within half
a shell-width (here 1/2) of chi_this as the claim states. -/
theorem C4_counterexample :
    mask_lc_this_noinfo (109 / 10) 10 2 0 = true ∧
    ¬ specNoinfoWithinHalfWidth (109 / 10) 10 2 0 := by
  constructor
  · rw [mask_lc_this_noinfo]
    norm_num
  · rw [specNoinfoWithinHalfWidth]
    intro hc
    rw [show (109 : ℚ) / 10 - 10 = 9 / 10 by norm_num] at hc
    rw [show |(9 : ℚ) / 10| = 9 / 10 by norm_num] at hc
    norm_num at hc

/-- Claim C4, amended: an eligible halo with progenitor info is selected
iff its comoving distance lies in the half-open interval from chi_this
(exclusive) to chi_prev (inclusive); an eligible halo without info is
selected iff its distance lies in the asymmetric half-open interval from
chi_this - delta_chi_old/2 (exclusive) to chi_this + delta_chi/2
(inclusive) - extending half the previous spacing below chi_this and
half the current spacing above it; the interval's total width equals the
average of the current and previous inter-shell spacings, but the
interval is not centered on chi_this unless the two spacings agree. -/
theorem C4_selection_masks (d chi_this chi_prev delta_chi delta_chi_old : ℚ) :
    (mask_lc_this_info d chi_this chi_prev = true ↔
      chi_this < d ∧ d ≤ chi_prev) ∧
    (mask_lc_this_noinfo d chi_this delta_chi delta_chi_old = true ↔
      chi_this - delta_chi_old / 2 < d ∧ d ≤ chi_this + delta_chi / 2) ∧
    (chi_this + delta_chi / 2) - (chi_this - delta_chi_old / 2) =
      (delta_chi + delta_chi_old) / 2 := by
  refine ⟨?_, ?_, by ring⟩
  · rw [mask_lc_this_info]
    simp [gt_iff_lt]
  · rw [mask_lc_this_noinfo]
    simp [gt_iff_lt]

/-! ## Claim C6: identity decoding and index remapping -/

lemma remapOffset_not_mem (pairs : List (ℕ × ℕ)) (off sid : ℕ)
    (h : sid ∉ pairs.map Prod.fst) : remapOffset pairs off sid = 0 := by
  induction pairs generalizing off with
  | nil => rfl
  | cons p rest ih =>
    rw [List.map_cons, List.mem_cons, not_or] at h
    rw [remapOffset]
    have hne : p.1 ≠ sid := fun he => h.1 he.symm
    rw [if_neg hne, ih (off + p.2) h.2]

lemma remapOffset_append (w1 rest : List (ℕ × ℕ)) (off sid : ℕ)
    (h : sid ∉ w1.map Prod.fst) :
    remapOffset (w1 ++ rest) off sid =
      remapOffset rest (off + (w1.map Prod.snd).sum) sid := by
  induction w1 generalizing off with
  | nil => simp
  | cons p w ih =>
    rw [List.map_cons, List.mem_cons, not_or] at h
    rw [List.cons_append, remapOffset]
    have hne : p.1 ≠ sid := fun he => h.1 he.symm
    rw [if_neg hne, ih (off + p.2) h.2]
    simp [Nat.add_assoc]

/-- Claim C6: unpack_inds decodes an identity into local index
id mod 1e9 and chunk index (id mod 1e12 - local index) / 1e9, and when
the decoded chunk appears exactly once in the loaded window, correct_inds
replaces the id by the sum of the window chunk sizes consumed before that
chunk plus the local index. -/
theorem C6_remap (N_halos_slabs slabs : List ℕ) (start stop : ℕ)
    (haloId sz : ℕ) (w1 w2 : List (ℕ × ℕ))
    (hwin : slabWindow slabs N_halos_slabs start stop =
      w1 ++ ((unpack_inds haloId).1, sz) :: w2)
    (h1 : (unpack_inds haloId).1 ∉ w1.map Prod.fst)
    (h2 : (unpack_inds haloId).1 ∉ w2.map Prod.fst) :
    correct_one N_halos_slabs slabs start stop haloId =
      (w1.map Prod.snd).sum + (unpack_inds haloId).2 ∧
    (unpack_inds haloId).2 = haloId % 10 ^ 9 ∧
    (unpack_inds haloId).1 = (haloId % 10 ^ 12 - haloId % 10 ^ 9) / 10 ^ 9 := by
  refine ⟨?_, rfl, rfl⟩
  rw [correct_one, hwin, remapOffset_append w1 _ 0 _ h1, remapOffset]
  rw [if_pos rfl, remapOffset_not_mem w2 _ _ h2]
  omega

/-- Witness for claim C6 at the spec's synthetic input: chunk-size table
[10, 20, 30], chunk order [0, 1, 2], window [0, 3), and the id encoding
chunkIndex = 1, localIndex = 5 remaps to 10 + 5 = 15. -/
theorem C6_remap_witness :
    correct_one [10, 20, 30] [0, 1, 2] 0 3 (10 ^ 9 + 5) = 15 := by
  have h := C6_remap [10, 20, 30] [0, 1, 2] 0 3 (10 ^ 9 + 5) 20
    [(0, 10)] [(2, 30)] (by rfl) (by decide) (by decide)
  rw [h.1]
  rfl

/-! ## Claim C2: eligibility monotonicity -/

lemma set_false_preserves (e : List Bool) (i j : ℕ)
    (h : e.get? j = some false) : (e.set i false).get? j = some false := by
  induction e generalizing i j with
  | nil => simp at h
  | cons x xs ih =>
    cases i with
    | zero =>
      cases j with
      | zero => simp [List.set]
      | succ j' => simpa [List.set] using h
    | succ i' =>
      cases j with
      | zero => simpa [List.set] using h
      | succ j' =>
        rw [List.set]
        simp only [List.get?] at h ⊢
        exact ih i' j' h

lemma markFalse_preserves (e : List Bool) (inds : List ℕ) (j : ℕ)
    (h : e.get? j = some false) : (markFalse e inds).get? j = some false := by
  induction inds generalizing e with
  | nil => exact h
  | cons i is ih => exact ih (e.set i false) (set_false_preserves e i j h)

/-- Claim C2: the only writes to an eligibility array are set-false
assignments, so once a halo-slot holds false, any further sequence of
ineligibility updates for that epoch and origin leaves it false for the
rest of the run; and the eligibility array of a newly opened epoch is
all-true. -/
theorem C2_eligibility_monotone :
    (∀ (e : List Bool) (updates : List (List ℕ)) (j : ℕ),
      e.get? j = some false →
      (updates.foldl markFalse e).get? j = some false) ∧
    (∀ n j : ℕ, j < n → (freshEligibility n).get? j = some true) := by
  constructor
  · intro e updates j h
    induction updates generalizing e with
    | nil => exact h
    | cons u us ih =>
      exact ih (markFalse e u) (markFalse_preserves e u j h)
  · intro n j hj
    rw [freshEligibility]
    induction n generalizing j with
    | zero => omega
    | succ n ih =>
      cases j with
      | zero => rfl
      | succ j' =>
        rw [List.replicate]
        simp only [List.get?]
        exact ih j' (by omega)

/-- Witness for claim C2: slot 1, already false, stays false across two
further update rounds, and a fresh three-slot epoch is eligible at
slot 2. -/
theorem C2_eligibility_monotone_witness :
    ([[0], [1, 2]].foldl markFalse [true, false, true]).get? 1 = some false ∧
    (freshEligibility 3).get? 2 = some true :=
  ⟨C2_eligibility_monotone.1 [true, false, true] [[0], [1, 2]] 1 rfl,
   C2_eligibility_monotone.2 3 2 (by omega)⟩

/-! ## Claim C10: no-info entries and velocity re-attachment -/

/-- Claim C10: a catalog entry emitted for a selected halo without
progenitor info carries zero interpolated velocity, interpolated
comoving distance chi_this, and the halo's uninterpolated position; the
catalog-attachment step overwrites an entry's velocity with v_L2com
exactly when the entry's absolute velocity components sum below 1e-6,
which covers every no-info entry and also any interpolated entry whose
velocity is that small. -/
theorem C10_noinfo_velocity :
    (∀ (chi_this : ℚ) (h : NoinfoHalo),
      (noinfoEntry chi_this h).vel = (0, 0, 0) ∧
      (noinfoEntry chi_this h).chi = chi_this ∧
      (noinfoEntry chi_this h).pos = h.pos ∧
      (noinfoEntry chi_this h).haloIndex = h.haloIndex) ∧
    (∀ (v : ℚ × ℚ × ℚ) (e : LCEntry),
      (attachVel v e).vel =
        if |e.vel.1| + |e.vel.2.1| + |e.vel.2.2| - 0 < 1 / 1000000 then v
        else e.vel) ∧
    (∀ (chi_this : ℚ) (h : NoinfoHalo) (v : ℚ × ℚ × ℚ),
      attachVel v (noinfoEntry chi_this h) =
        { noinfoEntry chi_this h with vel := v }) ∧
    (∀ (v : ℚ × ℚ × ℚ) (e : LCEntry),
      |e.vel.1| + |e.vel.2.1| + |e.vel.2.2| < 1 / 1000000 →
      (attachVel v e).vel = v) := by
  refine ⟨fun chi_this h => ⟨rfl, rfl, rfl, rfl⟩, ?_, ?_, ?_⟩
  · intro v e
    rw [attachVel, not_interp]
    by_cases hc : |e.vel.1| + |e.vel.2.1| + |e.vel.2.2| - 0 < 1 / 1000000
    · rw [if_pos hc, if_pos (by simpa using hc)]
    · rw [if_neg hc, if_neg (by simpa using hc)]
  · intro chi_this h v
    have hpos : not_interp (noinfoEntry chi_this h).vel = true := by
      rw [not_interp, noinfoEntry]
      norm_num
    rw [attachVel, if_pos hpos]
  · intro v e hsmall
    have hpos : not_interp e.vel = true := by
      rw [not_interp]
      simp only [decide_eq_true_eq]
      linarith
    rw [attachVel, if_pos hpos]

/-- Witness for claim C10: an interpolated entry whose tiny velocity
(1/2000000, 0, 0) happens to sum below 1e-6 also gets its velocity
overwritten by v_L2com = (7, 8, 9). -/
theorem C10_noinfo_velocity_witness :
    (attachVel (7, 8, 9) ⟨0, (1, 2, 3), (1 / 2000000, 0, 0), 5⟩).vel =
      (7, 8, 9) :=
  C10_noinfo_velocity.2.2.2 (7, 8, 9) ⟨0, (1, 2, 3), (1 / 2000000, 0, 0), 5⟩
    (by
      have h1 : |(1 : ℚ) / 2000000| = 1 / 2000000 := abs_of_pos (by norm_num)
      norm_num [h1])

/-! ## Claim C9: origin mutation across units -/

/-- Claim C9 refutation: processing a unit does not leave the header's
observer-origin coordinates unchanged. With the single origin
(-990, -990, -990), the first unit for origin index 0 halves the shared
row in place and uses (-495, -495, -495); the next unit for the same
origin index then uses (-495/2, -495/2, -495/2), a different origin. -/
theorem C9_origin_mutated :
    (processUnitOrigin [((-990 : ℚ), -990, -990)] 0).1 ≠
      [((-990 : ℚ), -990, -990)] ∧
    (processUnitOrigin [((-990 : ℚ), -990, -990)] 0).2 =
      ((-495 : ℚ), -495, -495) ∧
    (processUnitOrigin (processUnitOrigin [((-990 : ℚ), -990, -990)] 0).1 0).2 =
      ((-495 / 2 : ℚ), -495 / 2, -495 / 2) := by
  refine ⟨?_, by norm_num [processUnitOrigin], by norm_num [processUnitOrigin]⟩
  intro hc
  rw [processUnitOrigin] at hc
  simp only [List.getD, List.set] at hc
  have := List.head_eq_of_cons_eq hc
  rw [Prod.ext_iff] at this
  norm_num at this

/-! ## Claim C8: resume validation crashes -/

/-- Claim C8 refutation: the resume branch reads zs_mt[ind_start] at
line 296, but ind_start is first assigned at line 313, so every resume
run raises UnboundLocalError before processing any epoch - in
particular a run whose checkpointed redshift matches the epoch about to
resume does not resume normally. The concrete instance uses
zs_mt = [0.3, 0.4] with a matching checkpoint redshift 0.3. -/
theorem C8_resume_crash :
    (∀ (zs : List ℚ) (ckptZ z_start z_stop : ℚ),
      mainPrelude true zs ckptZ z_start z_stop =
        Except.error "UnboundLocalError: ind_start") ∧
    mainPrelude true [3 / 10, 2 / 5] (3 / 10) (3 / 10) (13 / 20) =
      Except.error "UnboundLocalError: ind_start" :=
  ⟨fun _ _ _ _ => rfl, rfl⟩

/-! ## Claim C1: carry-over records across the epoch boundary -/

/-- Claim C1 refutation: the carry-over checkpoint written while
processing the first epoch (z = 0.3) is stored under that epoch's own
redshift key, but the next epoch (z = 0.4) loads under its own redshift
key, so the two keys differ and the pending record (sample row 7) is
never appended: the two-epoch run fails at the load instead of merging
the three sources. -/
theorem C1_carry_not_loaded :
    storeAfterEpoch0 (3 / 10) (mergerNextKey (3 / 10) 0 0) =
      some [sampleEntry 7] ∧
    mergerNextKey (2 / 5) 0 0 ≠ mergerNextKey (3 / 10) 0 0 ∧
    storeAfterEpoch0 (3 / 10) (mergerNextKey (2 / 5) 0 0) = none ∧
    twoEpochRun (3 / 10) (2 / 5) = none := by
  have hcond : ¬(true = false ∨ false = true) := by simp
  have hne : mergerNextKey (2 / 5) 0 0 ≠ mergerNextKey (3 / 10) 0 0 := by
    rw [mergerNextKey, mergerNextKey]
    intro hc
    rw [Prod.ext_iff] at hc
    norm_num at hc
  have hstore : storeAfterEpoch0 (3 / 10) = fun key =>
      if key = mergerNextKey (3 / 10) 0 0 then some [sampleEntry 7]
      else none := by
    simp only [storeAfterEpoch0, epochUnitCarry, if_neg hcond]
  have hload : storeAfterEpoch0 (3 / 10) (mergerNextKey (2 / 5) 0 0) = none := by
    rw [hstore]
    exact if_neg hne
  refine ⟨?_, hne, hload, ?_⟩
  · rw [hstore]
    exact if_pos rfl
  · simp only [twoEpochRun, epochUnitCarry, hload]
    simp

end AbacusLC
